import Mathlib

/-!
# Shallow embedding of `src/main.cpp` (TimeSeriesAnalysis)

The source is a single C++ file.  Its numeric core is a set of indicator
functions over the member vector `std::vector<double> prices` (newest-first)
of class `TimeSeriesAnalyzer`, plus `parseData`, which fills `prices` and
`timestamps` from a provider payload.

Modelling decisions:

* Prices are modelled as `List ℚ` (index 0 = most recent close), exact
  arithmetic standing in for `double`.
* Periods are modelled as `ℕ`.  The source declares them `int`, but every
  guard compares them against `prices.size()` (a `size_t`), so a negative
  period is converted to a huge unsigned value and behaves as insufficient
  data; the spec's data model (§3) restricts `period` to positive integers,
  and every claim quantifies over that domain.
* `calculateStandardDeviation` applies `std::sqrt`, which is irrational on
  rational inputs, so it and `calculateBollingerBands` land in `ℝ` via
  `Real.sqrt`; everything before the square root stays in `ℚ`.
* `calculateRSI` performs an unguarded division `avg_gain / avg_loss`.
  Under IEEE-754 `double` semantics this is total: `g / 0 = +inf` for
  `g > 0` (so `100 - 100/(1 + inf) = 100`), and `0 / 0 = NaN`.  The
  embedding returns `Option ℚ`, with `none` modelling the NaN outcome and
  the `+inf` path folded to its exact result `100`.
* In `ℚ`, `x / 0 = 0`; the source's `double` gives NaN for the `0 / 0`
  that `calculateSMA`/`calculateWMA` would produce at `period = 0`.  No
  claim touches `period = 0` (the spec's period domain is positive), and
  the divergence is noted where it matters.
-/

namespace TimeSeriesAnalyzer

/-- `double calculateSMA(int period)` (src/main.cpp:71-74):
`if (prices.size() < period) return 0;` then
`std::accumulate(prices.begin(), prices.begin() + period, 0.0) / period` —
the mean of the `period` most recent closes. -/
def calculateSMA (prices : List ℚ) (period : ℕ) : ℚ :=
  if prices.length < period then 0
  else (prices.take period).sum / period

/-- The sequential blend loop of `calculateEMA`:
`ema = alpha * prices[i] + (1 - alpha) * ema` applied to each listed price
in order (the list holds `prices[1] … prices[period-1]`). -/
def emaAux (alpha : ℚ) (acc : ℚ) : List ℚ → ℚ
  | [] => acc
  | p :: rest => emaAux alpha (alpha * p + (1 - alpha) * acc) rest

/-- `double calculateEMA(int period)` (src/main.cpp:76-84): guard
`prices.size() < period → 0`; otherwise `alpha = 2.0 / (period + 1)`,
`ema = prices[0]`, then the loop `for (i = 1; i < period; i++)` blends in
`prices[1] … prices[period-1]`, i.e. `(prices.take period).drop 1`. -/
def calculateEMA (prices : List ℚ) (period : ℕ) : ℚ :=
  if prices.length < period then 0
  else emaAux (2 / ((period : ℚ) + 1)) (prices.getD 0 0) ((prices.take period).drop 1)

/-- `double calculateWMA(int period)` (src/main.cpp:86-96): guard
`prices.size() < period → 0`; otherwise accumulate
`sum += prices[i] * (period - i)` and `weightSum += period - i` for
`i = 0 … period-1`, returning `sum / weightSum`. -/
def calculateWMA (prices : List ℚ) (period : ℕ) : ℚ :=
  if prices.length < period then 0
  else
    let sw := (List.range period).foldl
      (fun (sw : ℚ × ℚ) i =>
        (sw.1 + prices.getD i 0 * ((period - i : ℕ) : ℚ),
         sw.2 + ((period - i : ℕ) : ℚ))) (0, 0)
    sw.1 / sw.2

/-- The rational part of `calculateStandardDeviation`:
`sum_sq_diff = Σ_{i<period} (prices[i] - mean)²` with `mean = SMA(period)`
(src/main.cpp:101-105), divided by `period`. -/
def variancePop (prices : List ℚ) (period : ℕ) : ℚ :=
  (((prices.take period).map
    (fun p => (p - calculateSMA prices period) ^ 2)).sum) / period

/-- `double calculateStandardDeviation(int period)` (src/main.cpp:99-107):
guard `prices.size() < period → 0`; otherwise
`std::sqrt(sum_sq_diff / period)`.  The square root is modelled by
`Real.sqrt` on the exact rational variance. -/
noncomputable def calculateStandardDeviation (prices : List ℚ) (period : ℕ) : ℝ :=
  if prices.length < period then 0
  else Real.sqrt ((variancePop prices period : ℚ) : ℝ)

/-- `double calculateBollingerBands(int period, double multiplier, bool upper)`
(src/main.cpp:109-113): no guard of its own;
`upper ? sma + multiplier * std_dev : sma - multiplier * std_dev`. -/
noncomputable def calculateBollingerBands (prices : List ℚ) (period : ℕ)
    (multiplier : ℚ) (upper : Bool) : ℝ :=
  let sma : ℝ := ((calculateSMA prices period : ℚ) : ℝ)
  let std_dev := calculateStandardDeviation prices period
  if upper then sma + (multiplier : ℝ) * std_dev
  else sma - (multiplier : ℝ) * std_dev

/-- `std::string detectTrend(int shortPeriod, int longPeriod)`
(src/main.cpp:116-129): guard on `longPeriod` only; then the three-way
comparison of `calculateSMA(shortPeriod)` against `calculateSMA(longPeriod)`. -/
def detectTrend (prices : List ℚ) (shortPeriod longPeriod : ℕ) : String :=
  if prices.length < longPeriod then "Insufficient data"
  else
    let shortMA := calculateSMA prices shortPeriod
    let longMA := calculateSMA prices longPeriod
    if shortMA > longMA then "Uptrend"
    else if shortMA < longMA then "Downtrend"
    else "Sideways"

/-- The accumulation loop of `calculateRSI` (src/main.cpp:134-142):
for `i = 1 … period`, `change = prices[i-1] - prices[i]`; positive changes
add to the gain component, otherwise `avg_loss -= change`.  Loop index `i`
of the source corresponds to `i + 1` for `i ∈ range period` here. -/
def rsiSums (prices : List ℚ) (period : ℕ) : ℚ × ℚ :=
  (List.range period).foldl
    (fun (gl : ℚ × ℚ) i =>
      let change := prices.getD i 0 - prices.getD (i + 1) 0
      if change > 0 then (gl.1 + change, gl.2) else (gl.1, gl.2 - change))
    (0, 0)

/-- `double calculateRSI(int period)` (src/main.cpp:131-148): guard
`prices.size() < period + 1 → 0`; otherwise average the accumulated gain
and loss over `period` and return `100 - 100 / (1 + avg_gain / avg_loss)`.
The division is unguarded in the source; under IEEE `double` semantics
`avg_loss = 0` with `avg_gain > 0` gives `rs = +inf`, hence the result
`100 - 100/(1 + inf) = 100`, and `avg_gain = avg_loss = 0` gives NaN.
The embedding makes those two IEEE outcomes explicit: `none` models NaN;
all finite results are exact. -/
def calculateRSI (prices : List ℚ) (period : ℕ) : Option ℚ :=
  if prices.length < period + 1 then some 0
  else
    let gl := rsiSums prices period
    let avg_gain := gl.1 / period
    let avg_loss := gl.2 / period
    if avg_loss = 0 then (if avg_gain = 0 then none else some 100)
    else some (100 - 100 / (1 + avg_gain / avg_loss))

/-- A raw provider record as `parseData` consumes it
(src/main.cpp:48-68).  `closeParse` models the result of
`std::stod(it.value()["4. close"].get<std::string>())`: `some q` when the
close string converts to the value `q`, `none` when no conversion is
possible and `std::stod` throws `std::invalid_argument`.  `tsMillis`
models the `get_time`/`mktime`/`duration_cast` chain applied to the
timestamp key, which never throws and always yields a value. -/
structure RawRecord where
  closeParse : Option ℚ
  tsMillis : Int
  deriving DecidableEq, Repr

/-- `void parseData(const std::string& data)` (src/main.cpp:48-68), after
JSON decoding: `prices.clear(); timestamps.clear();` then for each record
in order, convert the close string (a failing conversion throws, modelled
as `Except.error`, aborting the whole construction) and push the price and
the derived millisecond timestamp.  There is no per-record validation and
no emptiness check: a payload with zero records yields `ok ([], [])`. -/
def parseData : List RawRecord → Except String (List ℚ × List Int)
  | [] => .ok ([], [])
  | r :: rest =>
    match r.closeParse with
    | none => .error "std::invalid_argument"
    | some p =>
      match parseData rest with
      | .error e => .error e
      | .ok (ps, ts) => .ok (p :: ps, r.tsMillis :: ts)

/-- The recurrence stated in the spec for the EMA (§4.2): seeded with the
most-recent close `price[0]`, then `ema_i = α·price_i + (1-α)·ema_{i-1}`
for `i = 1 … period-1`; `emaRecSpec prices α n` is `ema_n`. -/
def emaRecSpec (prices : List ℚ) (alpha : ℚ) : ℕ → ℚ
  | 0 => prices.getD 0 0
  | i + 1 => alpha * prices.getD (i + 1) 0 + (1 - alpha) * emaRecSpec prices alpha i

/-- The price change the RSI loop inspects at source index `i`:
`change = prices[i-1] - prices[i]` (src/main.cpp:136). -/
def change (prices : List ℚ) (i : ℕ) : ℚ :=
  prices.getD (i - 1) 0 - prices.getD i 0

/-- Average gain as the spec states it: positive changes over indices
`1..period`, averaged over `period`. -/
def avgGainSpec (prices : List ℚ) (period : ℕ) : ℚ :=
  (∑ i ∈ Finset.Icc 1 period,
    if 0 < change prices i then change prices i else 0) / period

/-- Average loss as the spec states it: magnitudes of non-positive changes
over indices `1..period`, averaged over `period`. -/
def avgLossSpec (prices : List ℚ) (period : ℕ) : ℚ :=
  (∑ i ∈ Finset.Icc 1 period,
    if 0 < change prices i then 0 else -(change prices i)) / period

/-- The mutable members of `TimeSeriesAnalyzer` that hold the series
(src/main.cpp:25-26): `std::vector<double> prices` and
`std::vector<long long> timestamps`. -/
structure AnalyzerState where
  prices : List ℚ
  timestamps : List Int

/-- One indicator method invocation with its per-call parameters. -/
inductive IndicatorCall where
  | sma (period : ℕ)
  | ema (period : ℕ)
  | wma (period : ℕ)
  | stdDev (period : ℕ)
  | boll (period : ℕ) (multiplier : ℚ) (upper : Bool)
  | trend (shortPeriod longPeriod : ℕ)
  | rsi (period : ℕ)

/-- The value an indicator call produces. -/
inductive IndicatorResult where
  | num (x : ℚ)
  | real (x : ℝ)
  | label (s : String)
  | optNum (x : Option ℚ)

/-- Execution of a single indicator method on the analyzer state,
translated from src/main.cpp:71-148.  Each method body only reads the
member vectors (`prices.size()`, `prices[i]`, iterator reads); none of the
seven methods contains an assignment, `clear`, `push_back` or any other
mutation of `prices` or `timestamps` (the only code that mutates them is
`parseData`, src/main.cpp:52-66), so the post-state of each call is the
pre-state. -/
noncomputable def execCall (st : AnalyzerState) :
    IndicatorCall → AnalyzerState × IndicatorResult
  | .sma p => (st, .num (calculateSMA st.prices p))
  | .ema p => (st, .num (calculateEMA st.prices p))
  | .wma p => (st, .num (calculateWMA st.prices p))
  | .stdDev p => (st, .real (calculateStandardDeviation st.prices p))
  | .boll p m u => (st, .real (calculateBollingerBands st.prices p m u))
  | .trend s l => (st, .label (detectTrend st.prices s l))
  | .rsi p => (st, .optNum (calculateRSI st.prices p))

/-- Sequential execution of a list of indicator calls, each running on the
state left by the previous one (as successive method calls on the object
do), collecting the produced values. -/
noncomputable def execCalls (st : AnalyzerState) :
    List IndicatorCall → AnalyzerState × List IndicatorResult
  | [] => (st, [])
  | c :: cs =>
    let r := execCall st c
    let rest := execCalls r.1 cs
    (rest.1, r.2 :: rest.2)

lemma calculateSMA_insufficient (prices : List ℚ) (period : ℕ)
    (h : prices.length < period) : calculateSMA prices period = 0 := by
  simp [calculateSMA, h]

lemma calculateEMA_insufficient (prices : List ℚ) (period : ℕ)
    (h : prices.length < period) : calculateEMA prices period = 0 := by
  simp [calculateEMA, h]

lemma calculateWMA_insufficient (prices : List ℚ) (period : ℕ)
    (h : prices.length < period) : calculateWMA prices period = 0 := by
  simp [calculateWMA, h]

lemma calculateStandardDeviation_insufficient (prices : List ℚ) (period : ℕ)
    (h : prices.length < period) : calculateStandardDeviation prices period = 0 := by
  simp [calculateStandardDeviation, h]

lemma calculateRSI_insufficient (prices : List ℚ) (period : ℕ)
    (h : prices.length < period + 1) : calculateRSI prices period = some 0 := by
  simp [calculateRSI, h]

lemma calculateSMA_pos (prices : List ℚ) (period : ℕ)
    (hp : 0 < period) (hl : period ≤ prices.length)
    (hpos : ∀ p ∈ prices, 0 < p) : 0 < calculateSMA prices period := by
  rw [calculateSMA, if_neg (not_lt.mpr hl)]
  apply div_pos
  · apply List.sum_pos
    · intro x hx
      exact hpos x (List.take_subset period prices hx)
    · apply List.ne_nil_of_length_pos
      simp only [List.length_take]
      omega
  · exact_mod_cast hp

lemma emaAux_append (alpha a y : ℚ) (xs : List ℚ) :
    emaAux alpha a (xs ++ [y]) = alpha * y + (1 - alpha) * emaAux alpha a xs := by
  induction xs generalizing a with
  | nil => simp [emaAux]
  | cons x xs ih => simp [emaAux, ih]

lemma getD_drop_one (l : List ℚ) (n : ℕ) :
    (l.drop 1).getD n 0 = l.getD (n + 1) 0 := by
  cases l with
  | nil => simp
  | cons x xs => rfl

lemma getD_zero_take (l : List ℚ) (n : ℕ) (hn : 0 < n) :
    (l.take n).getD 0 0 = l.getD 0 0 := by
  cases l with
  | nil => simp
  | cons x xs =>
    cases n with
    | zero => omega
    | succ m => rfl

lemma emaAux_eq_emaRecSpec (prices : List ℚ) (alpha : ℚ) :
    ∀ n, n < prices.length →
      emaAux alpha (prices.getD 0 0) ((prices.drop 1).take n)
        = emaRecSpec prices alpha n := by
  intro n
  induction n with
  | zero => intro _; simp [emaAux, emaRecSpec]
  | succ k ih =>
    intro h
    have hk : k < (prices.drop 1).length := by
      simp only [List.length_drop]
      omega
    rw [List.take_succ, List.getElem?_eq_getElem hk]
    have hx : (prices.drop 1)[k] = prices.getD (k + 1) 0 := by
      have h1 : (prices.drop 1).getD k 0 = (prices.drop 1)[k] := by
        rw [List.getD_eq_getElem?_getD, List.getElem?_eq_getElem hk]
        rfl
      rw [← h1, getD_drop_one]
    simp only [Option.toList_some]
    rw [emaAux_append, ih (by omega), hx]
    simp [emaRecSpec]

lemma wmaFold_eq (prices : List ℚ) (period : ℕ) (n : ℕ) :
    (List.range n).foldl
      (fun (sw : ℚ × ℚ) i =>
        (sw.1 + prices.getD i 0 * ((period - i : ℕ) : ℚ),
         sw.2 + ((period - i : ℕ) : ℚ))) (0, 0)
    = (∑ i ∈ Finset.range n, prices.getD i 0 * ((period - i : ℕ) : ℚ),
       ∑ i ∈ Finset.range n, ((period - i : ℕ) : ℚ)) := by
  induction n with
  | zero => simp
  | succ k ih =>
    rw [List.range_succ, List.foldl_append, ih]
    simp [Finset.sum_range_succ]

lemma rsiSums_eq (prices : List ℚ) (n : ℕ) :
    rsiSums prices n =
      (∑ i ∈ Finset.range n,
          if 0 < prices.getD i 0 - prices.getD (i + 1) 0
          then prices.getD i 0 - prices.getD (i + 1) 0 else 0,
       ∑ i ∈ Finset.range n,
          if 0 < prices.getD i 0 - prices.getD (i + 1) 0
          then 0 else -(prices.getD i 0 - prices.getD (i + 1) 0)) := by
  induction n with
  | zero => simp [rsiSums]
  | succ k ih =>
    simp only [rsiSums] at ih ⊢
    rw [List.range_succ, List.foldl_append, ih]
    rw [Finset.sum_range_succ, Finset.sum_range_succ]
    simp only [List.foldl_cons, List.foldl_nil]
    by_cases h : 0 < prices.getD k 0 - prices.getD (k + 1) 0
    · rw [if_pos h, if_pos h, if_pos h]
      simp
    · rw [if_neg h, if_neg h, if_neg h]
      simp [sub_eq_add_neg]

lemma sum_Icc_one_eq_sum_range (f : ℕ → ℚ) (n : ℕ) :
    ∑ i ∈ Finset.Icc 1 n, f i = ∑ i ∈ Finset.range n, f (i + 1) := by
  induction n with
  | zero => simp
  | succ k ih =>
    rw [Finset.sum_Icc_succ_top (by omega), ih, Finset.sum_range_succ]

lemma parseData_ok_of_all_parse (records : List RawRecord)
    (h : ∀ r ∈ records, r.closeParse ≠ none) :
    parseData records =
      .ok (records.filterMap RawRecord.closeParse,
           records.map RawRecord.tsMillis) := by
  induction records with
  | nil => simp [parseData]
  | cons r rest ih =>
    obtain ⟨p, hp⟩ := Option.ne_none_iff_exists'.mp (h r (by simp))
    have ih' := ih (fun x hx => h x (by simp [hx]))
    simp [parseData, hp, ih', List.filterMap_cons]

lemma parseData_error_of_malformed (records : List RawRecord)
    (h : ∃ r ∈ records, r.closeParse = none) :
    parseData records = .error "std::invalid_argument" := by
  induction records with
  | nil => simp at h
  | cons r rest ih =>
    rcases h with ⟨x, hx, hnone⟩
    rcases List.mem_cons.mp hx with rfl | hmem
    · simp [parseData, hnone]
    · by_cases hr : r.closeParse = none
      · simp [parseData, hr]
      · obtain ⟨p, hp⟩ := Option.ne_none_iff_exists'.mp hr
        simp [parseData, hp, ih ⟨_, hmem, hnone⟩]

lemma filterMap_closeParse_length (records : List RawRecord)
    (h : ∀ r ∈ records, r.closeParse ≠ none) :
    (records.filterMap RawRecord.closeParse).length = records.length := by
  induction records with
  | nil => rfl
  | cons r rest ih =>
    obtain ⟨p, hp⟩ := Option.ne_none_iff_exists'.mp (h r (by simp))
    simp [List.filterMap_cons, hp, ih (fun x hx => h x (by simp [hx]))]

lemma execCall_fst (st : AnalyzerState) (c : IndicatorCall) :
    (execCall st c).1 = st := by
  cases c <;> rfl

/-- C1: for every price series of length `L` and every period `P > L`
(`P > L - 1`, i.e. `L < P + 1`, for RSI), each indicator — SMA, EMA, WMA,
standard deviation, both Bollinger bands, and RSI — returns the defined
insufficient-data sentinel zero (RSI: `some 0`); all the functions are
total, so none fails or raises.  In particular this holds for the empty
series (`L = 0`). -/
theorem indicators_insufficient_data_sentinel (prices : List ℚ) (P : ℕ) :
    (prices.length < P →
      calculateSMA prices P = 0 ∧ calculateEMA prices P = 0 ∧
      calculateWMA prices P = 0 ∧ calculateStandardDeviation prices P = 0 ∧
      ∀ m : ℚ, calculateBollingerBands prices P m true = 0 ∧
               calculateBollingerBands prices P m false = 0) ∧
    (prices.length < P + 1 → calculateRSI prices P = some 0) := by
  constructor
  · intro h
    refine ⟨calculateSMA_insufficient _ _ h, calculateEMA_insufficient _ _ h,
      calculateWMA_insufficient _ _ h,
      calculateStandardDeviation_insufficient _ _ h, ?_⟩
    intro m
    constructor <;>
      simp [calculateBollingerBands, calculateSMA_insufficient _ _ h,
        calculateStandardDeviation_insufficient _ _ h]
  · exact calculateRSI_insufficient prices P

/-- C1 witness: on the empty series with period 1 (and RSI period 1 with
`0 < 1 + 1`), every indicator returns the zero sentinel. -/
theorem indicators_insufficient_data_sentinel_witness :
    calculateSMA [] 1 = 0 ∧ calculateEMA [] 1 = 0 ∧ calculateWMA [] 1 = 0 ∧
    calculateStandardDeviation [] 1 = 0 ∧
    calculateBollingerBands [] 1 2 true = 0 ∧
    calculateBollingerBands [] 1 2 false = 0 ∧
    calculateRSI [] 1 = some 0 := by
  have h := indicators_insufficient_data_sentinel [] 1
  have h1 := h.1 (by decide)
  have h2 := h.2 (by decide)
  exact ⟨h1.1, h1.2.1, h1.2.2.1, h1.2.2.2.1, (h1.2.2.2.2 2).1,
    (h1.2.2.2.2 2).2, h2⟩

/-- C6: for every series with `length ≥ period` and every multiplier `m`,
the upper Bollinger band is `SMA + m·σ`, the lower is `SMA - m·σ`, and
their difference is exactly `2·m·σ`, with `σ` the population standard
deviation. -/
theorem bollingerBands_sma_pm_sigma (prices : List ℚ) (period : ℕ) (m : ℚ)
    (h : period ≤ prices.length) :
    calculateBollingerBands prices period m true
        = ((calculateSMA prices period : ℚ) : ℝ)
          + (m : ℝ) * calculateStandardDeviation prices period ∧
    calculateBollingerBands prices period m false
        = ((calculateSMA prices period : ℚ) : ℝ)
          - (m : ℝ) * calculateStandardDeviation prices period ∧
    calculateBollingerBands prices period m true
        - calculateBollingerBands prices period m false
        = 2 * (m : ℝ) * calculateStandardDeviation prices period := by
  have hu : calculateBollingerBands prices period m true
      = ((calculateSMA prices period : ℚ) : ℝ)
        + (m : ℝ) * calculateStandardDeviation prices period := rfl
  have hlow : calculateBollingerBands prices period m false
      = ((calculateSMA prices period : ℚ) : ℝ)
        - (m : ℝ) * calculateStandardDeviation prices period := rfl
  refine ⟨hu, hlow, ?_⟩
  rw [hu, hlow]
  ring

/-- C6 witness: for the series `[3, 5]`, period 2, multiplier 1 the band
difference is `2·1·σ`. -/
theorem bollingerBands_sma_pm_sigma_witness :
    calculateBollingerBands [3, 5] 2 1 true
        - calculateBollingerBands [3, 5] 2 1 false
      = 2 * ((1 : ℚ) : ℝ) * calculateStandardDeviation [3, 5] 2 :=
  (bollingerBands_sma_pm_sigma [3, 5] 2 1 (by decide)).2.2

/-- C8: for every positive period (the spec's period domain, §3) and every
series of at least `period` elements all equal to `c`, the WMA equals
exactly `c`: the linear weights `period - i` cancel against their sum. -/
theorem calculateWMA_uniform (prices : List ℚ) (period : ℕ) (c : ℚ)
    (hp : 0 < period) (hl : period ≤ prices.length)
    (hc : ∀ p ∈ prices, p = c) :
    calculateWMA prices period = c := by
  unfold calculateWMA
  rw [if_neg (not_lt.mpr hl)]
  simp only [wmaFold_eq]
  have hW : 0 < ∑ i ∈ Finset.range period, ((period - i : ℕ) : ℚ) := by
    apply Finset.sum_pos
    · intro i hi
      have hi' : 0 < period - i := by
        have := Finset.mem_range.mp hi
        omega
      exact_mod_cast hi'
    · exact ⟨0, Finset.mem_range.mpr hp⟩
  have hnum : ∑ i ∈ Finset.range period, prices.getD i 0 * ((period - i : ℕ) : ℚ)
      = c * ∑ i ∈ Finset.range period, ((period - i : ℕ) : ℚ) := by
    rw [Finset.mul_sum]
    apply Finset.sum_congr rfl
    intro i hi
    have hi' : i < prices.length := lt_of_lt_of_le (Finset.mem_range.mp hi) hl
    have hgd : prices.getD i 0 = prices.get ⟨i, hi'⟩ := by
      rw [List.getD_eq_getElem?_getD, List.getElem?_eq_getElem hi']
      rfl
    rw [hgd, hc _ (List.get_mem prices i hi')]
  rw [hnum, mul_div_assoc, div_self (ne_of_gt hW), mul_one]

/-- C8 witness: the WMA of the uniform series `[5, 5]` with period 2 is 5. -/
theorem calculateWMA_uniform_witness : calculateWMA [5, 5] 2 = 5 :=
  calculateWMA_uniform [5, 5] 2 5 (by decide) (by decide)
    (by intro p hp; simpa using hp)

/-- C9: the trend classifier guards only on `longPeriod` — for every
series of strictly positive prices with
`longPeriod ≤ length < shortPeriod` (with `longPeriod` positive, the
spec's period domain), `detectTrend` does not report insufficient data:
the short SMA is the zero sentinel, the long SMA is positive, so the
comparison yields `"Downtrend"`. -/
theorem detectTrend_guard_only_long (prices : List ℚ)
    (shortPeriod longPeriod : ℕ)
    (hl0 : 0 < longPeriod) (hll : longPeriod ≤ prices.length)
    (hs : prices.length < shortPeriod)
    (hpos : ∀ p ∈ prices, 0 < p) :
    detectTrend prices shortPeriod longPeriod = "Downtrend" := by
  have hshort : calculateSMA prices shortPeriod = 0 :=
    calculateSMA_insufficient _ _ hs
  have hlong : 0 < calculateSMA prices longPeriod :=
    calculateSMA_pos _ _ hl0 hll hpos
  have h1 : ¬ (calculateSMA prices longPeriod < calculateSMA prices shortPeriod) := by
    rw [hshort]
    exact not_lt.mpr (le_of_lt hlong)
  have h2 : calculateSMA prices shortPeriod < calculateSMA prices longPeriod := by
    rw [hshort]
    exact hlong
  simp [detectTrend, not_lt.mpr hll, h1, h2]

/-- C9 witness: `[1, 2]` with `shortPeriod = 3 > 2 = length ≥ 1 = longPeriod`
yields `"Downtrend"`. -/
theorem detectTrend_guard_only_long_witness :
    detectTrend [1, 2] 3 1 = "Downtrend" :=
  detectTrend_guard_only_long [1, 2] 3 1 (by decide) (by decide) (by decide)
    (by intro p hp; simp at hp; rcases hp with rfl | rfl <;> norm_num)

/-- C10: every indicator computation leaves the price and timestamp
vectors unchanged (none of the seven methods mutates them), so any
sequence of indicator calls, in any order and multiplicity, ends in the
starting state and each call returns exactly the value it would return on
the starting state. -/
theorem indicator_calls_preserve_series (st : AnalyzerState)
    (calls : List IndicatorCall) :
    (execCalls st calls).1 = st ∧
    (execCalls st calls).2 = calls.map (fun c => (execCall st c).2) := by
  induction calls with
  | nil => exact ⟨rfl, rfl⟩
  | cons c cs ih =>
    simp only [execCalls, execCall_fst, List.map_cons]
    exact ⟨ih.1, by rw [ih.2]⟩

/-- C3: for every series and periods, if `length < longPeriod` the
classifier returns the explicit `"Insufficient data"` result; otherwise
it returns `"Uptrend"` exactly when `SMA(shortPeriod) > SMA(longPeriod)`,
`"Downtrend"` exactly when strictly less, and `"Sideways"` exactly when
the two are equal (exact equality, no epsilon). -/
theorem detectTrend_classification (prices : List ℚ)
    (shortPeriod longPeriod : ℕ) :
    (prices.length < longPeriod →
      detectTrend prices shortPeriod longPeriod = "Insufficient data") ∧
    (longPeriod ≤ prices.length →
      (detectTrend prices shortPeriod longPeriod = "Uptrend"
          ↔ calculateSMA prices longPeriod < calculateSMA prices shortPeriod) ∧
      (detectTrend prices shortPeriod longPeriod = "Downtrend"
          ↔ calculateSMA prices shortPeriod < calculateSMA prices longPeriod) ∧
      (detectTrend prices shortPeriod longPeriod = "Sideways"
          ↔ calculateSMA prices shortPeriod = calculateSMA prices longPeriod)) := by
  constructor
  · intro h
    simp [detectTrend, h]
  · intro h
    have hn := not_lt.mpr h
    rcases lt_trichotomy (calculateSMA prices shortPeriod)
        (calculateSMA prices longPeriod) with hlt | heq | hgt
    · have hres : detectTrend prices shortPeriod longPeriod = "Downtrend" := by
        simp [detectTrend, hn, not_lt.mpr (le_of_lt hlt), hlt]
      rw [hres]
      exact ⟨⟨fun hstr => absurd hstr (by decide),
              fun hcmp => absurd hlt (not_lt.mpr (le_of_lt hcmp))⟩,
             ⟨fun _ => hlt, fun _ => rfl⟩,
             ⟨fun hstr => absurd hstr (by decide),
              fun heq2 => absurd heq2 (ne_of_lt hlt)⟩⟩
    · have hres : detectTrend prices shortPeriod longPeriod = "Sideways" := by
        simp [detectTrend, hn, not_lt.mpr heq.le, not_lt.mpr heq.ge]
      rw [hres]
      exact ⟨⟨fun hstr => absurd hstr (by decide),
              fun hcmp => absurd hcmp (not_lt.mpr heq.le)⟩,
             ⟨fun hstr => absurd hstr (by decide),
              fun hcmp => absurd hcmp (not_lt.mpr heq.ge)⟩,
             ⟨fun _ => heq, fun _ => rfl⟩⟩
    · have hres : detectTrend prices shortPeriod longPeriod = "Uptrend" := by
        simp [detectTrend, hn, hgt]
      rw [hres]
      exact ⟨⟨fun _ => hgt, fun _ => rfl⟩,
             ⟨fun hstr => absurd hstr (by decide),
              fun hcmp => absurd hgt (not_lt.mpr (le_of_lt hcmp))⟩,
             ⟨fun hstr => absurd hstr (by decide),
              fun heq2 => absurd heq2.symm (ne_of_lt hgt)⟩⟩

/-- C3 witness: the spec's two examples — `[10,10,10,10]` with periods
`(2, 4)` is `"Sideways"`, `[10,9,1,1]` with periods `(2, 4)` is
`"Uptrend"`. -/
theorem detectTrend_classification_witness :
    detectTrend [10, 10, 10, 10] 2 4 = "Sideways" ∧
    detectTrend [10, 9, 1, 1] 2 4 = "Uptrend" := by
  constructor
  · exact ((detectTrend_classification [10, 10, 10, 10] 2 4).2
      (by decide)).2.2.mpr (by norm_num [calculateSMA])
  · exact ((detectTrend_classification [10, 9, 1, 1] 2 4).2
      (by decide)).1.mpr (by norm_num [calculateSMA])

/-- C4: for every series with `length ≥ period` (period positive, the
spec's period domain), the EMA equals the spec's recurrence seeded with
`price[0]` and folded through indices `1..period-1` with
`α = 2/(period+1)`; and the EMA consumes only the first `period` points:
any series agreeing on indices `0..period-1` yields the same EMA. -/
theorem calculateEMA_recurrence (prices : List ℚ) (period : ℕ)
    (hp : 0 < period) (hl : period ≤ prices.length) :
    calculateEMA prices period
        = emaRecSpec prices (2 / ((period : ℚ) + 1)) (period - 1) ∧
    ∀ prices' : List ℚ, period ≤ prices'.length →
      prices'.take period = prices.take period →
      calculateEMA prices' period = calculateEMA prices period := by
  constructor
  · unfold calculateEMA
    rw [if_neg (not_lt.mpr hl)]
    have hdt : (prices.drop 1).take (period - 1) = (prices.take period).drop 1 := by
      rw [List.take_drop]
      have h1 : 1 + (period - 1) = period := by omega
      rw [h1]
    rw [← hdt]
    exact emaAux_eq_emaRecSpec prices _ (period - 1) (by omega)
  · intro prices' hl' ht
    unfold calculateEMA
    rw [if_neg (not_lt.mpr hl'), if_neg (not_lt.mpr hl)]
    rw [← getD_zero_take prices' period hp, ← getD_zero_take prices period hp, ht]

/-- C4 witness: `EMA([1,2], 2)` matches the recurrence at step 1, and
appending a third point leaves `EMA(·, 2)` unchanged. -/
theorem calculateEMA_recurrence_witness :
    calculateEMA [1, 2] 2 = emaRecSpec [1, 2] (2 / (((2 : ℕ) : ℚ) + 1)) (2 - 1) ∧
    calculateEMA [1, 2, 3] 2 = calculateEMA [1, 2] 2 := by
  have h := calculateEMA_recurrence [1, 2] 2 (by decide) (by decide)
  exact ⟨h.1, h.2 [1, 2, 3] (by decide) rfl⟩

/-- C5: for every series with `length ≥ period + 1` whose average loss
over the window is nonzero (the all-gaining edge is C7's subject), the
RSI is computed from the `period` changes `price[i-1] - price[i]` for
`i = 1..period`, positive changes averaged into `avg_gain`, magnitudes of
the rest into `avg_loss`, each over `period`, returning
`100 - 100/(1 + avg_gain/avg_loss)`. -/
theorem calculateRSI_formula (prices : List ℚ) (period : ℕ)
    (hl : period + 1 ≤ prices.length)
    (hloss : avgLossSpec prices period ≠ 0) :
    calculateRSI prices period
      = some (100 - 100 / (1 + avgGainSpec prices period
          / avgLossSpec prices period)) := by
  have hg : (rsiSums prices period).1 / (period : ℚ) = avgGainSpec prices period := by
    rw [rsiSums_eq, avgGainSpec, sum_Icc_one_eq_sum_range]
    congr 1
  have hl2 : (rsiSums prices period).2 / (period : ℚ) = avgLossSpec prices period := by
    rw [rsiSums_eq, avgLossSpec, sum_Icc_one_eq_sum_range]
    congr 1
  simp only [calculateRSI]
  rw [if_neg (not_lt.mpr hl), hg, hl2, if_neg hloss]

/-- C5 witness: for `[2, 1, 3]` with period 2 the average loss is 1 ≠ 0
and the RSI equals the spec's formula. -/
theorem calculateRSI_formula_witness :
    avgLossSpec [2, 1, 3] 2 ≠ 0 ∧
    calculateRSI [2, 1, 3] 2
      = some (100 - 100 / (1 + avgGainSpec [2, 1, 3] 2
          / avgLossSpec [2, 1, 3] 2)) := by
  have hne : avgLossSpec [2, 1, 3] 2 ≠ 0 := by
    norm_num [avgLossSpec, sum_Icc_one_eq_sum_range, Finset.sum_range_succ, change]
  exact ⟨hne, calculateRSI_formula [2, 1, 3] 2 (by decide) hne⟩

/-- C7: for every series with `length ≥ period + 1` (period positive)
whose window of `period` changes is all-gaining — every change
`price[i-1] - price[i]` strictly positive, hence `avg_loss = 0` — the RSI
raises no division fault and returns the defined value 100 (in the source
via the IEEE quotient `avg_gain / 0 = +inf`, modelled here by the explicit
branch of `calculateRSI`). -/
theorem calculateRSI_all_gaining (prices : List ℚ) (period : ℕ)
    (hp : 0 < period) (hl : period + 1 ≤ prices.length)
    (hgain : ∀ i ∈ Finset.Icc 1 period, 0 < change prices i) :
    calculateRSI prices period = some 100 := by
  have hcond : ∀ i ∈ Finset.range period,
      0 < prices.getD i 0 - prices.getD (i + 1) 0 := by
    intro i hi
    have hi' : i + 1 ∈ Finset.Icc 1 period := by
      simp only [Finset.mem_Icc]
      have := Finset.mem_range.mp hi
      omega
    have hc := hgain (i + 1) hi'
    rw [change] at hc
    simpa using hc
  have hloss0 : (rsiSums prices period).2 = 0 := by
    rw [rsiSums_eq]
    dsimp only
    apply Finset.sum_eq_zero
    intro i hi
    rw [if_pos (hcond i hi)]
  have hgain0 : 0 < (rsiSums prices period).1 := by
    rw [rsiSums_eq]
    dsimp only
    apply Finset.sum_pos
    · intro i hi
      rw [if_pos (hcond i hi)]
      exact hcond i hi
    · exact ⟨0, Finset.mem_range.mpr hp⟩
  have hper : (0 : ℚ) < period := by exact_mod_cast hp
  have hgne : (rsiSums prices period).1 / (period : ℚ) ≠ 0 :=
    ne_of_gt (div_pos hgain0 hper)
  simp only [calculateRSI]
  rw [if_neg (not_lt.mpr hl), hloss0, zero_div, if_pos rfl, if_neg hgne]

/-- C7 witness: `[3, 2, 1]` with period 2 has both changes positive and
RSI exactly 100. -/
theorem calculateRSI_all_gaining_witness : calculateRSI [3, 2, 1] 2 = some 100 :=
  calculateRSI_all_gaining [3, 2, 1] 2 (by decide) (by decide)
    (by
      intro i hi
      simp only [Finset.mem_Icc] at hi
      obtain ⟨h1, h2⟩ := hi
      interval_cases i <;> norm_num [change])

/-- C2 counterexample: `parseData` does not drop a malformed record — one
record whose close price fails `std::stod` conversion aborts the whole
construction with an exception, so one valid plus one malformed entry does
not yield a length-1 series; and a payload with zero records yields the
empty series without any `EmptySeries` failure. -/
theorem parseData_no_validation_counterexample :
    parseData [⟨some 1, 0⟩, ⟨none, 0⟩] = .error "std::invalid_argument" ∧
    parseData ([] : List RawRecord) = .ok ([], []) :=
  ⟨rfl, rfl⟩

/-- C2 (amended): construction performs no per-record validation — a
record whose close price fails numeric conversion makes construction fail
with an exception rather than being dropped; a payload whose records all
parse yields one price per record (length `N` for `N` records) plus one
timestamp per record, in payload order; and a payload with zero valid
points does not fail with `EmptySeries` (the zero-record payload yields
the empty series, covered by the `ok` branch at `N = 0`). -/
theorem parseData_spec (records : List RawRecord) :
    ((∀ r ∈ records, r.closeParse ≠ none) →
      parseData records =
          .ok (records.filterMap RawRecord.closeParse,
               records.map RawRecord.tsMillis) ∧
      (records.filterMap RawRecord.closeParse).length = records.length) ∧
    ((∃ r ∈ records, r.closeParse = none) →
      parseData records = .error "std::invalid_argument") :=
  ⟨fun h => ⟨parseData_ok_of_all_parse records h,
    filterMap_closeParse_length records h⟩,
   fun h => parseData_error_of_malformed records h⟩

/-- C2 witness: a single well-formed record yields the length-1 series;
a single malformed record aborts with the conversion error. -/
theorem parseData_spec_witness :
    parseData [⟨some 2, 5⟩] = .ok ([2], [5]) ∧
    parseData [⟨none, 7⟩] = .error "std::invalid_argument" := by
  constructor
  · exact ((parseData_spec [⟨some 2, 5⟩]).1
      (by intro r hr; simp at hr; subst hr; simp)).1
  · exact (parseData_spec [⟨none, 7⟩]).2 ⟨⟨none, 7⟩, by simp, rfl⟩

end TimeSeriesAnalyzer
